import Mathlib

/-!
Verification development for the e2e hooks harness
(scripts/e2e_hooks_cli.go): a scripted SSE stream server, a quiescent
file-based event collector, and a sequence validator.

The Go code is shallowly embedded: maps of type map of string to any are
modelled as association lists over an inductive Json value type (the
harness only uses objects, arrays, strings, integral numbers, booleans
and null); json.Marshal renders objects with keys sorted byte-wise, as
encoding/json does; json.Unmarshal is modelled by a fueled
recursive-descent parser over the same subset (string escapes are
restricted to the simple escapes; the \u form and HTML escaping are not
exercised by the harness).  Wall-clock time is modelled as Nat
milliseconds read from a per-iteration trace; time.Now uses the
monotonic clock, so Nat subtraction is faithful for elapsed durations.
-/

namespace E2EHooks

/-- JSON values as used by the harness (integral numbers only). -/
inductive Json where
  | null : Json
  | bool (b : Bool) : Json
  | num (n : Int) : Json
  | str (s : String) : Json
  | arr (elems : List Json) : Json
  | obj (fields : List (String × Json)) : Json

/-- Canonical decimal rendering of an integer, as strconv.Itoa does. -/
def itoa (n : Int) : String := toString n

/-- Escape one character inside a JSON string, as encoding/json does for
the characters the harness uses (quote, backslash and the common control
characters; the \u form is not needed by any harness payload). -/
def escChar (c : Char) : String :=
  if c = '"' then ("\\\"")
  else if c = '\\' then ("\\\\")
  else if c = '\n' then ("\\n")
  else if c = '\t' then ("\\t")
  else if c = '\r' then ("\\r")
  else String.singleton c

def jsonEscape (s : String) : String :=
  String.join (s.data.map escChar)

/-- Byte-wise string order, as sort.Strings compares Go strings. -/
def strLeList : List Char → List Char → Bool
  | [], _ => true
  | _ :: _, [] => false
  | a :: as, b :: bs =>
    if a.toNat < b.toNat then true
    else if b.toNat < a.toNat then false
    else strLeList as bs

def strLe (a b : String) : Bool := strLeList a.data b.data

/-- Insert a rendered key/value pair into a key-sorted list
(encoding/json sorts object keys byte-wise before rendering). -/
def insertPair (p : String × String) : List (String × String) → List (String × String)
  | [] => [p]
  | q :: qs => if strLe p.1 q.1 then p :: q :: qs else q :: insertPair p qs

def sortPairs : List (String × String) → List (String × String)
  | [] => []
  | p :: ps => insertPair p (sortPairs ps)

def commaJoin : List String → String
  | [] => ""
  | [x] => x
  | x :: y :: rest => x ++ (",") ++ commaJoin (y :: rest)

def renderField (p : String × String) : String :=
  ("\"") ++ jsonEscape p.1 ++ ("\":") ++ p.2

mutual

/-- json.Marshal over the modelled subset: objects with sorted keys,
no added whitespace. -/
def marshal : Json → String
  | .null => ("null")
  | .bool b => if b then ("true") else ("false")
  | .num n => itoa n
  | .str s => ("\"") ++ jsonEscape s ++ ("\"")
  | .arr xs => ("[") ++ commaJoin (marshalList xs) ++ ("]")
  | .obj fs => ("\x7b") ++ commaJoin ((sortPairs (marshalFields fs)).map renderField) ++ ("\x7d")

def marshalList : List Json → List String
  | [] => []
  | x :: xs => marshal x :: marshalList xs

def marshalFields : List (String × Json) → List (String × String)
  | [] => []
  | (k, v) :: rest => (k, marshal v) :: marshalFields rest

end

/-- Whitespace skipping for the JSON reader. -/
def skipWs : List Char → List Char
  | [] => []
  | c :: cs => if c = ' ' ∨ c = '\n' ∨ c = '\t' ∨ c = '\r' then skipWs cs else c :: cs

/-- Decode of a single-character JSON escape (the \u form is not used by
the harness and is rejected). -/
def escDecode (e : Char) : Option Char :=
  if e = '"' then some '"'
  else if e = '\\' then some '\\'
  else if e = '/' then some '/'
  else if e = 'n' then some '\n'
  else if e = 't' then some '\t'
  else if e = 'r' then some '\r'
  else if e = 'b' then some (Char.ofNat 8)
  else if e = 'f' then some (Char.ofNat 12)
  else none

/-- Body of a JSON string literal, after the opening quote. -/
def parseStringBody : List Char → Option (String × List Char)
  | [] => none
  | c :: rest =>
    if c = '"' then some ("", rest)
    else if c = '\\' then
      match rest with
      | [] => none
      | e :: rest2 =>
        match escDecode e with
        | none => none
        | some d => (parseStringBody rest2).map (fun p => (String.singleton d ++ p.1, p.2))
    else (parseStringBody rest).map (fun p => (String.singleton c ++ p.1, p.2))

def digitsVal (cs : List Char) : Nat :=
  cs.foldl (fun a c => 10 * a + (c.toNat - ('0').toNat)) 0

mutual

/-- Fueled recursive-descent reader for the modelled JSON subset
(numbers are integral; a fraction or exponent is rejected, matching the
values the harness exchanges). -/
def parseVal : Nat → List Char → Option (Json × List Char)
  | 0, _ => none
  | fuel + 1, cs0 =>
    match skipWs cs0 with
    | [] => none
    | c :: rest =>
      if c = '"' then (parseStringBody rest).map (fun p => (Json.str p.1, p.2))
      else if c = '[' then
        match skipWs rest with
        | ']' :: rest2 => some (Json.arr [], rest2)
        | cs2 => (parseElems fuel cs2).map (fun p => (Json.arr p.1, p.2))
      else if c = '\x7b' then
        match skipWs rest with
        | '\x7d' :: rest2 => some (Json.obj [], rest2)
        | cs2 => (parseMembers fuel cs2).map (fun p => (Json.obj p.1, p.2))
      else if c = 'n' then
        match rest with
        | 'u' :: 'l' :: 'l' :: rest2 => some (Json.null, rest2)
        | _ => none
      else if c = 't' then
        match rest with
        | 'r' :: 'u' :: 'e' :: rest2 => some (Json.bool true, rest2)
        | _ => none
      else if c = 'f' then
        match rest with
        | 'a' :: 'l' :: 's' :: 'e' :: rest2 => some (Json.bool false, rest2)
        | _ => none
      else if c = '-' then
        let ds := rest.takeWhile Char.isDigit
        if ds = [] then none
        else some (Json.num (-(Int.ofNat (digitsVal ds))), rest.dropWhile Char.isDigit)
      else if c.isDigit then
        let all := c :: rest
        some (Json.num (Int.ofNat (digitsVal (all.takeWhile Char.isDigit))), all.dropWhile Char.isDigit)
      else none

/-- Comma-separated array elements, first element pending. -/
def parseElems : Nat → List Char → Option (List Json × List Char)
  | 0, _ => none
  | fuel + 1, cs0 =>
    match parseVal fuel cs0 with
    | none => none
    | some (v, cs1) =>
      match skipWs cs1 with
      | ',' :: rest => (parseElems fuel rest).map (fun p => (v :: p.1, p.2))
      | ']' :: rest => some ([v], rest)
      | _ => none

/-- Comma-separated object members, first member pending. -/
def parseMembers : Nat → List Char → Option (List (String × Json) × List Char)
  | 0, _ => none
  | fuel + 1, cs0 =>
    match skipWs cs0 with
    | '"' :: rest =>
      match parseStringBody rest with
      | none => none
      | some (k, cs1) =>
        match skipWs cs1 with
        | ':' :: cs2 =>
          match parseVal fuel cs2 with
          | none => none
          | some (v, cs3) =>
            match skipWs cs3 with
            | ',' :: rest2 => (parseMembers fuel rest2).map (fun p => ((k, v) :: p.1, p.2))
            | '\x7d' :: rest2 => some ([(k, v)], rest2)
            | _ => none
        | _ => none
    | _ => none

end

/-- json.Unmarshal style top-level parse: one value, then only
whitespace may remain. -/
def jsonParse (s : String) : Option Json :=
  match parseVal (2 * s.length + 2) s.data with
  | none => none
  | some (v, rest) => if skipWs rest = [] then some v else none

/-! ## strconv.Atoi / filename stems (readHookCallsOnce helpers) -/

def digitsOnly (cs : List Char) : Bool := cs.all Char.isDigit

/-- Digit run to a natural number, or none when empty or non-digit. -/
def parseNatDigits (cs : List Char) : Option Nat :=
  if cs = [] then none
  else if digitsOnly cs then some (digitsVal cs) else none

/-- Largest value of the 64-bit Go int used by strconv.Atoi. -/
def maxInt64 : Nat := 9223372036854775807

/-- strconv.Atoi: optional sign, then decimal digits, with the 64-bit
range check (Go int is 64-bit on the targeted platforms). -/
def atoi (s : String) : Option Int :=
  match s.data with
  | '+' :: rest =>
    (parseNatDigits rest).bind (fun v => if v ≤ maxInt64 then some (Int.ofNat v) else none)
  | '-' :: rest =>
    (parseNatDigits rest).bind (fun v => if v ≤ maxInt64 + 1 then some (-(Int.ofNat v)) else none)
  | cs =>
    (parseNatDigits cs).bind (fun v => if v ≤ maxInt64 then some (Int.ofNat v) else none)

/-- filepath.Ext over a directory-entry name (no path separators): the
suffix starting at the final dot, or empty when there is no dot. -/
def extChars (cs : List Char) : List Char :=
  if '.' ∈ cs then '.' :: (cs.reverse.takeWhile (fun c => ¬ c = '.')).reverse else []

/-- strings.TrimSuffix(base, filepath.Ext(base)): the name with its
extension stripped. -/
def stemChars (cs : List Char) : List Char :=
  cs.take (cs.length - (extChars cs).length)

def stemOf (name : String) : String := String.mk (stemChars name.data)

/-- filepath.Join for the simple dir/base case the harness uses. -/
def joinPath (dir base : String) : String := dir ++ ("/") ++ base

/-! ## Hook call records -/

/-- One decoded hook record (struct hookCall in the source). -/
structure hookCall where
  Seq : Int
  SeqStr : String
  Expected : String
  Event : String
  SubmissionID : String
  Path : String
deriving DecidableEq, Repr

/-- The JSON shape of a record file (struct hookCallJSON). -/
structure hookCallJSON where
  Seq : String
  Expected : String
  Event : String
  SubmissionID : String
deriving DecidableEq, Repr

/-- json.Unmarshal of one field of hookCallJSON: a missing key or a JSON
null leaves the zero value; a non-string value is a type error. -/
def getStrField (fs : List (String × Json)) (k : String) : Option String :=
  match List.lookup k fs with
  | none => some ("")
  | some (Json.str s) => some s
  | some Json.null => some ("")
  | some _ => none

/-- json.Unmarshal of a record file body into hookCallJSON.  A JSON
null succeeds and leaves the zero struct; any non-object otherwise is
an error, as is a non-string field value. -/
def parseHookCall (content : String) : Option hookCallJSON :=
  match jsonParse content with
  | some (Json.obj fs) =>
    match getStrField fs ("seq"), getStrField fs ("expected"),
          getStrField fs ("event"), getStrField fs ("submission_id") with
    | some a, some b, some c, some d => some ⟨a, b, c, d⟩
    | _, _, _, _ => none
  | some Json.null => some ⟨"", "", "", ""⟩
  | _ => none

/-- One entry of an os.ReadDir listing, with its file content inlined
(file reads are not modelled as failing). -/
structure DirEntry where
  name : String
  isDir : Bool
  content : String
deriving DecidableEq, Repr

/-- Errors of the collector (readHookCallsOnce / listHookCalls).  Each
constructor carries the data the corresponding fmt.Errorf interpolates:
the parse error names the offending file path; the timeout carries the
wanted count, the directory and the count found. -/
inductive CollectErr where
  | parseErr (path : String)
  | timeout (want : Nat) (dir : String) (found : Nat)
deriving DecidableEq, Repr

instance {ε α : Type} [DecidableEq ε] [DecidableEq α] : DecidableEq (Except ε α) := fun x y =>
  match x, y with
  | .ok a, .ok b =>
    if h : a = b then isTrue (by rw [h]) else isFalse (fun hh => by cases hh; exact h rfl)
  | .error a, .error b =>
    if h : a = b then isTrue (by rw [h]) else isFalse (fun hh => by cases hh; exact h rfl)
  | .ok _, .error _ => isFalse (fun hh => by cases hh)
  | .error _, .ok _ => isFalse (fun hh => by cases hh)

/-- Ordering used by the sort.Slice call in readHookCallsOnce. -/
def seqLe (a b : hookCall) : Prop := a.Seq ≤ b.Seq

instance : DecidableRel seqLe := fun a b => inferInstanceAs (Decidable (a.Seq ≤ b.Seq))

instance : IsTotal hookCall seqLe := ⟨fun a b => Int.le_total a.Seq b.Seq⟩

instance : IsTrans hookCall seqLe := ⟨fun _ _ _ h1 h2 => le_trans h1 h2⟩

/-- Result of the sort.Slice call: the records ordered by decoded
sequence number (ties cannot arise in a harness run; the model fixes a
stable order for them). -/
def sortCalls (l : List hookCall) : List hookCall := List.insertionSort seqLe l

/-- The per-entry loop body of readHookCallsOnce: directories are
skipped, names whose extension-stripped stem is not an integer are
skipped, and a record that fails to decode aborts the whole scan with
the offending path. -/
def readHookCallsAux (dir : String) : List DirEntry → Except CollectErr (List hookCall)
  | [] => .ok []
  | e :: rest =>
    if e.isDir then readHookCallsAux dir rest
    else
      match atoi (stemOf e.name) with
      | none => readHookCallsAux dir rest
      | some seq =>
        match parseHookCall e.content with
        | none => .error (.parseErr (joinPath dir e.name))
        | some p =>
          (readHookCallsAux dir rest).map
            (fun cs => ⟨seq, p.Seq, p.Expected, p.Event, p.SubmissionID, joinPath dir e.name⟩ :: cs)

/-- readHookCallsOnce: a single directory scan, sorted by decoded
sequence number. -/
def readHookCallsOnce (dir : String) (entries : List DirEntry) : Except CollectErr (List hookCall) :=
  (readHookCallsAux dir entries).map sortCalls

/-- The record the scan would keep for one listing entry (used to state
what readHookCallsOnce collects). -/
def decodeOne (dir : String) (e : DirEntry) : Option hookCall :=
  if e.isDir then none
  else
    match atoi (stemOf e.name) with
    | none => none
    | some seq =>
      match parseHookCall e.content with
      | none => none
      | some p => some ⟨seq, p.Seq, p.Expected, p.Event, p.SubmissionID, joinPath dir e.name⟩

/-! ## Stub stream server -/

/-- The mutable state of stubServer: the FIFO queue of scripted SSE
bodies and the append-only log of decoded inbound request payloads,
both guarded by one mutex in the source. -/
structure StubState where
  sseQueue : List String
  responseReqs : List (List (String × Json))

/-- stubServer.popSSE: pop the head exchange under the lock. -/
def popSSE (s : StubState) : Option String × StubState :=
  match s.sseQueue with
  | [] => (none, s)
  | b :: rest => (some b, { s with sseQueue := rest })

/-- stubServer.recordResponseRequest: append one decoded payload under
the lock. -/
def recordResponseRequest (body : List (String × Json)) (s : StubState) : StubState :=
  { s with responseReqs := s.responseReqs ++ [body] }

/-- HTTP responses the stub can produce. -/
inductive HResponse where
  | json (body : String)
  | stream (contentType : String) (body : String)
  | error500 (msg : String)
  | notFound
deriving DecidableEq, Repr

/-- json.Unmarshal of a request body into map of string to any: only an
object (or a JSON null, which leaves the nil map) succeeds. -/
def decodeBody (raw : String) : Option (List (String × Json)) :=
  match jsonParse raw with
  | some (Json.obj fs) => some fs
  | some Json.null => some []
  | _ => none

/-- The create-response branch of stubServer.ServeHTTP: decode the body
(tolerating failure), record it when non-empty, then pop one exchange
and stream it, or answer 500 when the queue is exhausted. -/
def serveResponses (raw : String) (s : StubState) : HResponse × StubState :=
  let s1 :=
    match decodeBody raw with
    | some parsed => if parsed.length ≠ 0 then recordResponseRequest parsed s else s
    | none => s
  match popSSE s1 with
  | (none, s2) => (.error500 ("no queued SSE responses"), s2)
  | (some body, s2) => (.stream ("text/event-stream") body, s2)

inductive Method where
  | get
  | post
deriving DecidableEq

/-- stubServer.ServeHTTP: suffix dispatch over the three endpoints. -/
def serveHTTP (m : Method) (path : String) (raw : String) (s : StubState) : HResponse × StubState :=
  if m = .get ∧ path.endsWith ("/models") then (.json ("\x7b\"models\":[]\x7d"), s)
  else if m = .post ∧ path.endsWith ("/responses") then serveResponses raw s
  else if m = .post ∧ path.endsWith ("/responses/compact") then (.json ("\x7b\"summary\":\"ok\"\x7d"), s)
  else (.notFound, s)

/-- Sequential processing of a list of create-response request bodies. -/
def processAll : List String → StubState → List HResponse × StubState
  | [], s => ([], s)
  | r :: rs, s =>
    let p := serveResponses r s
    let q := processAll rs p.2
    (p.1 :: q.1, q.2)

/-! ## SSE encoding (func sse) and a generic SSE client parse -/

/-- The event kind line value: the type key of the event map, when it
holds a string (the failed type assertion yields the empty string). -/
def kindOf (ev : List (String × Json)) : String :=
  match List.lookup ("type") ev with
  | some (Json.str s) => s
  | _ => ""

/-- One loop iteration of func sse: an event line, then either the
blank separator alone (single-key event) or a data line with the whole
marshalled payload followed by the blank separator. -/
def sseOne (ev : List (String × Json)) : String :=
  ("event: ") ++ kindOf ev ++ ("\n") ++
    (if ev.length = 1 then ("\n")
     else ("data: ") ++ marshal (Json.obj ev) ++ ("\n") ++ ("\n"))

/-- func sse: the strings.Builder fold over the scripted events. -/
def sse (events : List (List (String × Json))) : String :=
  events.foldl (fun acc ev => acc ++ sseOne ev) ""

/-- Split a character stream into newline-terminated lines. -/
def splitNl : List Char → List (List Char)
  | [] => [[]]
  | c :: rest =>
    if c = '\n' then [] :: splitNl rest
    else
      match splitNl rest with
      | [] => [[c]]
      | g :: gs => (c :: g) :: gs

/-- Prefix test over character lists. -/
def startsWithL : List Char → List Char → Bool
  | [], _ => true
  | _ :: _, [] => false
  | p :: ps, c :: cs => p = c && startsWithL ps cs

/-- Split a line list into blank-line separated frames. -/
def groupFrames (ls : List (List Char)) : List (List (List Char)) :=
  let step := fun (acc : List (List (List Char)) × List (List Char)) (l : List Char) =>
    if l = [] then (acc.1 ++ [acc.2], []) else (acc.1, acc.2 ++ [l])
  let r := ls.foldl step ([], [])
  if r.2 = [] then r.1 else r.1 ++ [r.2]

/-- One frame as a generic SSE client sees it: the event line names the
kind, the optional data line carries a JSON payload. -/
def parseFrameLines (ls : List (List Char)) : Option (String × Option Json) :=
  match ls.find? (fun l => startsWithL (("event: ").data) l) with
  | none => none
  | some evLine =>
    match ls.find? (fun l => startsWithL (("data: ").data) l) with
    | none => some (String.mk (evLine.drop 7), none)
    | some dataLine =>
      match parseVal (2 * dataLine.length + 2) (dataLine.drop 6) with
      | none => none
      | some (j, rest) => if skipWs rest = [] then some (String.mk (evLine.drop 7), some j) else none

/-- A generic SSE client parse of a whole stream body. -/
def parseSSEStream (s : String) : Option (List (String × Option Json)) :=
  ((groupFrames (splitNl s.data)).filter (fun f => ¬ f = [])).mapM parseFrameLines

/-! ## Sequence validator (the check loop at the end of func main) -/

/-- func equalStrings: length check, then element-wise comparison. -/
def equalStrings (a b : List String) : Bool :=
  if a.length ≠ b.length then false
  else (a.zip b).all (fun p => p.1 == p.2)

/-- The four consistency failures the validator can report, each
carrying the data its fmt.Fprintf interpolates. -/
inductive Violation where
  | seqMismatch (fileSeq : Int) (jsonSeq : String) (path : String)
  | expectedEventMismatch (expected : String) (event : String) (seq : Int) (path : String)
  | orderMismatch (got : List String) (want : List String)
  | countMismatch (got : Nat) (gotEvents : List String) (want : Nat)
deriving DecidableEq, Repr

/-- The two per-record checks of the validator loop, in source order:
the seq cross-check fires when the self-reported seq string is present
and differs from the canonical rendering of the filename-decoded
sequence number; then the expected/event comparison. -/
def recordViolation (c : hookCall) : Option Violation :=
  if c.SeqStr ≠ "" ∧ c.SeqStr ≠ itoa c.Seq then some (.seqMismatch c.Seq c.SeqStr c.Path)
  else if c.Expected ≠ c.Event then some (.expectedEventMismatch c.Expected c.Event c.Seq c.Path)
  else none

/-- The validator loop over the records: os.Exit(1) on the first
per-record violation, modelled as returning it. -/
def checkRecords : List hookCall → Option Violation
  | [] => none
  | c :: cs =>
    match recordViolation c with
    | some v => some v
    | none => checkRecords cs

/-- The whole validator: per-record checks in sequence order, then the
element-wise order check, then the count check; the first violation is
reported and the process exits, so at most one violation is returned. -/
def validateMain (calls : List hookCall) (want : List String) : Option Violation :=
  match checkRecords calls with
  | some v => some v
  | none =>
    let got := calls.map (fun c => c.Event)
    if equalStrings got want = false then some (.orderMismatch got want)
    else if calls.length ≠ want.length then some (.countMismatch calls.length got want.length)
    else none

/-- All violations of the two per-record checks, in evaluation order. -/
def perRecordViolations : List hookCall → List Violation
  | [] => []
  | c :: cs =>
    (if c.SeqStr ≠ "" ∧ c.SeqStr ≠ itoa c.Seq then [Violation.seqMismatch c.Seq c.SeqStr c.Path] else []) ++
      (if c.Expected ≠ c.Event then [Violation.expectedEventMismatch c.Expected c.Event c.Seq c.Path] else []) ++
      perRecordViolations cs

/-- Modelled from the spec (section 4.3): the list of ALL violations of
the four checks, in the evaluation order of the source, used to compare
the code against the claim that every violation is reported. -/
def specAllViolations (calls : List hookCall) (want : List String) : List Violation :=
  let got := calls.map (fun c => c.Event)
  perRecordViolations calls ++
    (if equalStrings got want = false then [Violation.orderMismatch got want] else []) ++
    (if calls.length ≠ want.length then [Violation.countMismatch calls.length got want.length] else [])

/-! ## Quiescent collector loop (func listHookCalls) -/

/-- The fixed quiet window of listHookCalls, in milliseconds. -/
def quietForMs : Nat := 200

/-- The environment a run of the loop observes: the directory name, the
listing each poll returns, and the two wall-clock readings each
iteration makes (tS inside the stability block, tD at the deadline
check).  Times are Nat milliseconds on the monotonic clock. -/
structure CollectEnv where
  dir : String
  snap : Nat → List DirEntry
  tS : Nat → Nat
  tD : Nat → Nat

/-- The two loop variables of listHookCalls (stableSince is none for
the zero time.Time). -/
structure LoopState where
  lastCount : Nat
  stableSince : Option Nat
deriving DecidableEq, Repr

/-- Whether the stability block returns this iteration: count at least
the minimum, unchanged since the previous iteration, and stable for at
least the quiet window. -/
def stepReturns (want quiet n lastCount : Nat) (ss : Option Nat) (tnow : Nat) : Bool :=
  if want ≤ n then
    if n = lastCount then
      match ss with
      | none => false
      | some t0 => decide (quiet ≤ tnow - t0)
    else false
  else false

/-- The stableSince update of one iteration when the loop continues:
reset on a count change at or above the minimum, started on the first
unchanged iteration, untouched below the minimum. -/
def stableUpdate (want n lastCount : Nat) (ss : Option Nat) (tnow : Nat) : Option Nat :=
  if want ≤ n then
    if n = lastCount then
      match ss with
      | none => some tnow
      | some t0 => some t0
    else none
  else ss

/-- The scan one poll performs. -/
def pollAt (env : CollectEnv) (i : Nat) : Except CollectErr (List hookCall) :=
  readHookCallsOnce env.dir (env.snap i)

def pollOk (env : CollectEnv) (i : Nat) : Bool :=
  match pollAt env i with
  | .ok _ => true
  | .error _ => false

/-- The records poll i yields (meaningful when the poll succeeds). -/
def callsAt (env : CollectEnv) (i : Nat) : List hookCall :=
  match pollAt env i with
  | .ok cs => cs
  | .error _ => []

def nAt (env : CollectEnv) (i : Nat) : Nat := (callsAt env i).length

/-- func listHookCalls as a fueled loop over the observation trace: scan,
propagate a scan error, return on stability, fail once the deadline has
passed (the error carries the wanted count, the directory and the count
found), else continue with the updated loop state. -/
def collectRun (env : CollectEnv) (want quiet deadline : Nat) :
    Nat → Nat → LoopState → Option (Except CollectErr (List hookCall))
  | 0, _, _ => none
  | fuel + 1, i, st =>
    match pollAt env i with
    | .error e => some (.error e)
    | .ok calls =>
      let n := calls.length
      if stepReturns want quiet n st.lastCount st.stableSince (env.tS i) = true then
        some (.ok calls)
      else if deadline < env.tD i then some (.error (.timeout want env.dir n))
      else
        collectRun env want quiet deadline fuel (i + 1)
          ⟨n, stableUpdate want n st.lastCount st.stableSince (env.tS i)⟩

/-- The lastCount value entering iteration i. -/
def lastAt (env : CollectEnv) : Nat → Nat
  | 0 => 0
  | j + 1 => nAt env j

/-- The stableSince value entering iteration i, replayed from the
trace. -/
def declStable (env : CollectEnv) (want : Nat) : Nat → Option Nat
  | 0 => none
  | i + 1 => stableUpdate want (nAt env i) (lastAt env i) (declStable env want i) (env.tS i)

/-- The first index of the run of equal counts ending at i. -/
def runStart (env : CollectEnv) : Nat → Nat
  | 0 => 0
  | i + 1 => if nAt env (i + 1) = nAt env i then runStart env i else i + 1

/-- The declarative stability condition at poll i: the count is at
least the minimum and has been unchanged since the start of its run,
the run is old enough that the stability timer was started one
iteration after it began, and the quiet window has elapsed since. -/
def successAt (env : CollectEnv) (want quiet : Nat) (i : Nat) : Prop :=
  want ≤ nAt env i ∧ runStart env i + 1 < i ∧ quiet ≤ env.tS i - env.tS (runStart env i + 1)

instance (env : CollectEnv) (want quiet i : Nat) : Decidable (successAt env want quiet i) := by
  unfold successAt
  infer_instance

/-- What iteration i does, stated over the trace alone: return the scan
on stability, fail once the deadline has passed, else keep polling. -/
def outcomeAt (env : CollectEnv) (want quiet deadline : Nat) (i : Nat) :
    Option (Except CollectErr (List hookCall)) :=
  if successAt env want quiet i then some (.ok (callsAt env i))
  else if deadline < env.tD i then some (.error (.timeout want env.dir (nAt env i)))
  else none

/-! ## Fine-grained lock model of the create-response handler

Two concurrent create-response requests, each running the source's
sequence: acquire the server mutex, append its decoded payload to the
request log, release; acquire the mutex again, pop the head exchange,
release.  The scheduler interleaves the two threads arbitrarily; a
thread whose acquire finds the lock held stalls.  Program counters:
0 wants the first acquire, 1 holds the lock about to append, 2 appended
and about to release, 3 wants the second acquire, 4 holds the lock
about to pop, 5 popped and about to release, 6 done. -/

structure SrvConfig where
  lock : Option Bool
  queue : List String
  log : List (List (String × Json))
  pcA : Nat
  pcB : Nat
  resA : Option (Option String)
  resB : Option (Option String)

def SrvConfig.pc (c : SrvConfig) (t : Bool) : Nat := cond t c.pcB c.pcA

def SrvConfig.withPc (c : SrvConfig) (t : Bool) (v : Nat) : SrvConfig :=
  cond t { c with pcB := v } { c with pcA := v }

def SrvConfig.withRes (c : SrvConfig) (t : Bool) (v : Option (Option String)) : SrvConfig :=
  cond t { c with resB := v } { c with resA := v }

/-- One atomic action of thread t (t = false for request A).  The
append and the pop are the bodies of recordResponseRequest and popSSE;
each is one action because it executes while holding the mutex. -/
def srvStep (pA pB : List (String × Json)) (t : Bool) (c : SrvConfig) : SrvConfig :=
  let p := c.pc t
  if p = 0 then (if c.lock = none then { c.withPc t 1 with lock := some t } else c)
  else if p = 1 then { c.withPc t 2 with log := c.log ++ [cond t pB pA] }
  else if p = 2 then { c.withPc t 3 with lock := none }
  else if p = 3 then (if c.lock = none then { c.withPc t 4 with lock := some t } else c)
  else if p = 4 then { (c.withPc t 5).withRes t (some c.queue.head?) with queue := c.queue.drop 1 }
  else if p = 5 then { c.withPc t 6 with lock := none }
  else c

def srvInit (q : List String) : SrvConfig :=
  ⟨none, q, [], 0, 0, none, none⟩

def runSched (pA pB : List (String × Json)) (q : List String) (sched : List Bool) : SrvConfig :=
  sched.foldl (fun c t => srvStep pA pB t c) (srvInit q)

/-- Whether a program counter is inside one of the two critical
sections (holding the mutex). -/
def inCS (p : Nat) : Prop := p = 1 ∨ p = 2 ∨ p = 4 ∨ p = 5

instance (p : Nat) : Decidable (inCS p) := by
  unfold inCS
  infer_instance

/-! ## Lock model invariant: claim C2 -/

/-- The inductive invariant of the two-request interleaving model: the
mutex is held exactly by a thread inside a critical section, the log
holds exactly the payloads of the appends that have executed (in
execution order), the queue has lost exactly its popped heads, and each
completed pop returned the head the queue had at its instant. -/
def srvInv (q : List String) (pA pB : List (String × Json)) (c : SrvConfig) : Prop :=
  c.pcA ≤ 6 ∧
  c.pcB ≤ 6 ∧
  (c.lock = some false ↔ inCS c.pcA) ∧
  (c.lock = some true ↔ inCS c.pcB) ∧
  (c.pcA ≤ 1 → c.pcB ≤ 1 → c.log = []) ∧
  (2 ≤ c.pcA → c.pcB ≤ 1 → c.log = [pA]) ∧
  (c.pcA ≤ 1 → 2 ≤ c.pcB → c.log = [pB]) ∧
  (2 ≤ c.pcA → 2 ≤ c.pcB → c.log = [pA, pB] ∨ c.log = [pB, pA]) ∧
  c.queue = q.drop ((if 5 ≤ c.pcA then 1 else 0) + (if 5 ≤ c.pcB then 1 else 0)) ∧
  (c.pcA ≤ 4 → c.resA = none) ∧
  (c.pcB ≤ 4 → c.resB = none) ∧
  (5 ≤ c.pcA → c.pcB ≤ 4 → c.resA = some q.head?) ∧
  (5 ≤ c.pcB → c.pcA ≤ 4 → c.resB = some q.head?) ∧
  (5 ≤ c.pcA → 5 ≤ c.pcB →
    (c.resA = some q.head? ∧ c.resB = some ((q.drop 1).head?)) ∨
    (c.resB = some q.head? ∧ c.resA = some ((q.drop 1).head?)))

theorem srvInv_init (q : List String) (pA pB : List (String × Json)) :
    srvInv q pA pB (srvInit q) := by
  unfold srvInv srvInit inCS
  norm_num
  exact ⟨by simp, by simp⟩

/-- One scheduler step preserves the invariant, whichever thread runs
and wherever its program counter stands. -/
theorem srvInv_step (q : List String) (pA pB : List (String × Json)) (t : Bool) (c : SrvConfig)
    (h : srvInv q pA pB c) : srvInv q pA pB (srvStep pA pB t c) := by
  obtain ⟨lock, queue, log, pcA, pcB, resA, resB⟩ := c
  obtain ⟨hA6, hB6, hLA, hLB, hl00, hl10, hl01, hl11, hq, hrA0, hrB0, hrA1, hrB1, hr2⟩ := h
  dsimp only at hA6 hB6 hLA hLB hl00 hl10 hl01 hl11 hq hrA0 hrB0 hrA1 hrB1 hr2
  cases t with
  | false =>
    interval_cases pcA
    · -- acquire for the append, or stall
      rcases lock with - | tb
      · have hnB : ¬ inCS pcB := fun hc => Option.noConfusion (hLB.mpr hc)
        show srvInv q pA pB ⟨some false, queue, log, 1, pcB, resA, resB⟩
        dsimp only [srvInv]
        exact ⟨by decide, hB6, iff_of_true rfl (by simp [inCS]), iff_of_false (by simp) hnB,
          fun _ hb => hl00 (by omega) hb, fun (h2 : 2 ≤ 1) _ => absurd h2 (by omega),
          fun _ hb => hl01 (by omega) hb, fun (h2 : 2 ≤ 1) _ => absurd h2 (by omega),
          hq, fun _ => hrA0 (by omega), hrB0,
          fun (h5 : 5 ≤ 1) _ => absurd h5 (by omega), fun h5 _ => hrB1 h5 (by omega),
          fun (h5 : 5 ≤ 1) _ => absurd h5 (by omega)⟩
      · show srvInv q pA pB ⟨some tb, queue, log, 0, pcB, resA, resB⟩
        exact ⟨hA6, hB6, hLA, hLB, hl00, hl10, hl01, hl11, hq, hrA0, hrB0, hrA1, hrB1, hr2⟩
    · -- append
      show srvInv q pA pB ⟨lock, queue, log ++ [pA], 2, pcB, resA, resB⟩
      dsimp only [srvInv]
      exact ⟨by decide, hB6,
        iff_of_true (hLA.mpr (by simp [inCS])) (by simp [inCS]), hLB,
        fun (h1 : 2 ≤ 1) _ => absurd h1 (by omega),
        fun _ hb => by show log ++ [pA] = [pA]; rw [hl00 (by omega) hb]; rfl,
        fun (h1 : 2 ≤ 1) _ => absurd h1 (by omega),
        fun _ hb => Or.inr (by show log ++ [pA] = [pB, pA]; rw [hl01 (by omega) hb]; rfl),
        hq, fun _ => hrA0 (by omega), hrB0,
        fun (h5 : 5 ≤ 2) _ => absurd h5 (by omega), fun h5 _ => hrB1 h5 (by omega),
        fun (h5 : 5 ≤ 2) _ => absurd h5 (by omega)⟩
    · -- release after the append
      have hlf : lock = some false := hLA.mpr (by simp [inCS])
      have hnB : ¬ inCS pcB := fun hc => by
        rw [hlf] at hLB
        exact absurd (hLB.mpr hc) (by simp)
      show srvInv q pA pB ⟨none, queue, log, 3, pcB, resA, resB⟩
      dsimp only [srvInv]
      exact ⟨by decide, hB6, iff_of_false (by simp) (by simp [inCS]), iff_of_false (by simp) hnB,
        fun (h1 : 3 ≤ 1) _ => absurd h1 (by omega),
        fun _ hb => hl10 (by omega) hb,
        fun (h1 : 3 ≤ 1) _ => absurd h1 (by omega),
        fun _ hb => hl11 (by omega) hb,
        hq, fun _ => hrA0 (by omega), hrB0,
        fun (h5 : 5 ≤ 3) _ => absurd h5 (by omega), fun h5 _ => hrB1 h5 (by omega),
        fun (h5 : 5 ≤ 3) _ => absurd h5 (by omega)⟩
    · -- acquire for the pop, or stall
      rcases lock with - | tb
      · have hnB : ¬ inCS pcB := fun hc => Option.noConfusion (hLB.mpr hc)
        show srvInv q pA pB ⟨some false, queue, log, 4, pcB, resA, resB⟩
        dsimp only [srvInv]
        exact ⟨by decide, hB6, iff_of_true rfl (by simp [inCS]), iff_of_false (by simp) hnB,
          fun (h1 : 4 ≤ 1) _ => absurd h1 (by omega),
          fun _ hb => hl10 (by omega) hb,
          fun (h1 : 4 ≤ 1) _ => absurd h1 (by omega),
          fun _ hb => hl11 (by omega) hb,
          hq, fun _ => hrA0 (by omega), hrB0,
          fun (h5 : 5 ≤ 4) _ => absurd h5 (by omega), fun h5 _ => hrB1 h5 (by omega),
          fun (h5 : 5 ≤ 4) _ => absurd h5 (by omega)⟩
      · show srvInv q pA pB ⟨some tb, queue, log, 3, pcB, resA, resB⟩
        exact ⟨hA6, hB6, hLA, hLB, hl00, hl10, hl01, hl11, hq, hrA0, hrB0, hrA1, hrB1, hr2⟩
    · -- pop
      show srvInv q pA pB ⟨lock, queue.drop 1, log, 5, pcB, some queue.head?, resB⟩
      dsimp only [srvInv]
      by_cases h5B : 5 ≤ pcB
      · rw [if_pos h5B] at hq
        have hq : queue = q.drop 1 := hq
        refine ⟨by decide, hB6,
          iff_of_true (hLA.mpr (by simp [inCS])) (by simp [inCS]), hLB,
          fun (h1 : 5 ≤ 1) _ => absurd h1 (by omega),
          fun _ (hb : pcB ≤ 1) => absurd h5B (by omega),
          fun (h1 : 5 ≤ 1) _ => absurd h1 (by omega),
          fun _ hb => hl11 (by omega) hb,
          ?_, fun (h4 : 5 ≤ 4) => absurd h4 (by omega), hrB0,
          fun _ (hb4 : pcB ≤ 4) => absurd h5B (by omega),
          fun _ (h4 : 5 ≤ 4) => absurd h4 (by omega),
          fun _ _ => Or.inr ⟨hrB1 h5B (by omega),
            by show some queue.head? = some ((q.drop 1).head?); rw [hq]⟩⟩
        show queue.drop 1 = q.drop ((if (5 : Nat) ≤ 5 then 1 else 0) + (if 5 ≤ pcB then 1 else 0))
        rw [if_pos (by decide : (5 : Nat) ≤ 5), if_pos h5B, hq, List.drop_drop]
      · rw [if_neg h5B] at hq
        have hq : queue = q := hq
        refine ⟨by decide, hB6,
          iff_of_true (hLA.mpr (by simp [inCS])) (by simp [inCS]), hLB,
          fun (h1 : 5 ≤ 1) _ => absurd h1 (by omega),
          fun _ hb => hl10 (by omega) hb,
          fun (h1 : 5 ≤ 1) _ => absurd h1 (by omega),
          fun _ hb => hl11 (by omega) hb,
          ?_, fun (h4 : 5 ≤ 4) => absurd h4 (by omega), hrB0,
          fun _ _ => by show some queue.head? = some q.head?; rw [hq],
          fun h5 _ => absurd h5 h5B,
          fun _ h5 => absurd h5 h5B⟩
        show queue.drop 1 = q.drop ((if (5 : Nat) ≤ 5 then 1 else 0) + (if 5 ≤ pcB then 1 else 0))
        rw [if_pos (by decide : (5 : Nat) ≤ 5), if_neg h5B, hq]
    · -- release after the pop
      have hlf : lock = some false := hLA.mpr (by simp [inCS])
      have hnB : ¬ inCS pcB := fun hc => by
        rw [hlf] at hLB
        exact absurd (hLB.mpr hc) (by simp)
      show srvInv q pA pB ⟨none, queue, log, 6, pcB, resA, resB⟩
      dsimp only [srvInv]
      exact ⟨by decide, hB6, iff_of_false (by simp) (by simp [inCS]), iff_of_false (by simp) hnB,
        fun (h1 : 6 ≤ 1) _ => absurd h1 (by omega),
        fun _ hb => hl10 (by omega) hb,
        fun (h1 : 6 ≤ 1) _ => absurd h1 (by omega),
        fun _ hb => hl11 (by omega) hb,
        hq, fun (h4 : 6 ≤ 4) => absurd h4 (by omega), hrB0,
        fun _ hb => hrA1 (by omega) hb,
        fun _ (h4 : 6 ≤ 4) => absurd h4 (by omega),
        fun _ h5 => hr2 (by omega) h5⟩
    · -- done
      show srvInv q pA pB ⟨lock, queue, log, 6, pcB, resA, resB⟩
      dsimp only [srvInv]
      exact ⟨hA6, hB6, hLA, hLB, hl00, hl10, hl01, hl11, hq, hrA0, hrB0, hrA1, hrB1, hr2⟩
  | true =>
    interval_cases pcB
    · -- acquire for the append, or stall
      rcases lock with - | tb
      · have hnA : ¬ inCS pcA := fun hc => Option.noConfusion (hLA.mpr hc)
        show srvInv q pA pB ⟨some true, queue, log, pcA, 1, resA, resB⟩
        dsimp only [srvInv]
        exact ⟨hA6, by decide, iff_of_false (by simp) hnA, iff_of_true rfl (by simp [inCS]),
          fun ha _ => hl00 ha (by omega), fun h2 _ => hl10 h2 (by omega),
          fun _ (h2 : 2 ≤ 1) => absurd h2 (by omega), fun _ (h2 : 2 ≤ 1) => absurd h2 (by omega),
          hq, hrA0, fun _ => hrB0 (by omega),
          fun h5 _ => hrA1 h5 (by omega), fun (h5 : 5 ≤ 1) _ => absurd h5 (by omega),
          fun _ (h5 : 5 ≤ 1) => absurd h5 (by omega)⟩
      · show srvInv q pA pB ⟨some tb, queue, log, pcA, 0, resA, resB⟩
        exact ⟨hA6, hB6, hLA, hLB, hl00, hl10, hl01, hl11, hq, hrA0, hrB0, hrA1, hrB1, hr2⟩
    · -- append
      show srvInv q pA pB ⟨lock, queue, log ++ [pB], pcA, 2, resA, resB⟩
      dsimp only [srvInv]
      exact ⟨hA6, by decide, hLA,
        iff_of_true (hLB.mpr (by simp [inCS])) (by simp [inCS]),
        fun _ (h1 : 2 ≤ 1) => absurd h1 (by omega),
        fun _ (h1 : 2 ≤ 1) => absurd h1 (by omega),
        fun ha _ => by show log ++ [pB] = [pB]; rw [hl00 ha (by omega)]; rfl,
        fun h2 _ => Or.inl (by show log ++ [pB] = [pA, pB]; rw [hl10 h2 (by omega)]; rfl),
        hq, hrA0, fun _ => hrB0 (by omega),
        fun h5 _ => hrA1 h5 (by omega), fun (h5 : 5 ≤ 2) _ => absurd h5 (by omega),
        fun _ (h5 : 5 ≤ 2) => absurd h5 (by omega)⟩
    · -- release after the append
      have hlt : lock = some true := hLB.mpr (by simp [inCS])
      have hnA : ¬ inCS pcA := fun hc => by
        rw [hlt] at hLA
        exact absurd (hLA.mpr hc) (by simp)
      show srvInv q pA pB ⟨none, queue, log, pcA, 3, resA, resB⟩
      dsimp only [srvInv]
      exact ⟨hA6, by decide, iff_of_false (by simp) hnA, iff_of_false (by simp) (by simp [inCS]),
        fun _ (h1 : 3 ≤ 1) => absurd h1 (by omega),
        fun _ (h1 : 3 ≤ 1) => absurd h1 (by omega),
        fun ha _ => hl01 ha (by omega),
        fun h2 _ => hl11 h2 (by omega),
        hq, hrA0, fun _ => hrB0 (by omega),
        fun h5 _ => hrA1 h5 (by omega), fun (h5 : 5 ≤ 3) _ => absurd h5 (by omega),
        fun _ (h5 : 5 ≤ 3) => absurd h5 (by omega)⟩
    · -- acquire for the pop, or stall
      rcases lock with - | tb
      · have hnA : ¬ inCS pcA := fun hc => Option.noConfusion (hLA.mpr hc)
        show srvInv q pA pB ⟨some true, queue, log, pcA, 4, resA, resB⟩
        dsimp only [srvInv]
        exact ⟨hA6, by decide, iff_of_false (by simp) hnA, iff_of_true rfl (by simp [inCS]),
          fun _ (h1 : 4 ≤ 1) => absurd h1 (by omega),
          fun _ (h1 : 4 ≤ 1) => absurd h1 (by omega),
          fun ha _ => hl01 ha (by omega),
          fun h2 _ => hl11 h2 (by omega),
          hq, hrA0, fun _ => hrB0 (by omega),
          fun h5 _ => hrA1 h5 (by omega), fun (h5 : 5 ≤ 4) _ => absurd h5 (by omega),
          fun _ (h5 : 5 ≤ 4) => absurd h5 (by omega)⟩
      · show srvInv q pA pB ⟨some tb, queue, log, pcA, 3, resA, resB⟩
        exact ⟨hA6, hB6, hLA, hLB, hl00, hl10, hl01, hl11, hq, hrA0, hrB0, hrA1, hrB1, hr2⟩
    · -- pop
      show srvInv q pA pB ⟨lock, queue.drop 1, log, pcA, 5, resA, some queue.head?⟩
      dsimp only [srvInv]
      by_cases h5A : 5 ≤ pcA
      · rw [if_pos h5A] at hq
        have hq : queue = q.drop 1 := hq
        refine ⟨hA6, by decide, hLA,
          iff_of_true (hLB.mpr (by simp [inCS])) (by simp [inCS]),
          fun _ (h1 : 5 ≤ 1) => absurd h1 (by omega),
          fun _ (h1 : 5 ≤ 1) => absurd h1 (by omega),
          fun (ha : pcA ≤ 1) _ => absurd h5A (by omega),
          fun h2 _ => hl11 h2 (by omega),
          ?_, hrA0, fun (h4 : 5 ≤ 4) => absurd h4 (by omega),
          fun _ (h4 : 5 ≤ 4) => absurd h4 (by omega),
          fun _ (ha4 : pcA ≤ 4) => absurd h5A (by omega),
          fun _ _ => Or.inl ⟨hrA1 h5A (by omega),
            by show some queue.head? = some ((q.drop 1).head?); rw [hq]⟩⟩
        show queue.drop 1 = q.drop ((if 5 ≤ pcA then 1 else 0) + (if (5 : Nat) ≤ 5 then 1 else 0))
        rw [if_pos h5A, if_pos (by decide : (5 : Nat) ≤ 5), hq, List.drop_drop]
      · rw [if_neg h5A] at hq
        have hq : queue = q := hq
        refine ⟨hA6, by decide, hLA,
          iff_of_true (hLB.mpr (by simp [inCS])) (by simp [inCS]),
          fun _ (h1 : 5 ≤ 1) => absurd h1 (by omega),
          fun _ (h1 : 5 ≤ 1) => absurd h1 (by omega),
          fun ha _ => hl01 ha (by omega),
          fun h2 _ => hl11 h2 (by omega),
          ?_, hrA0, fun (h4 : 5 ≤ 4) => absurd h4 (by omega),
          fun h5 _ => absurd h5 h5A,
          fun _ _ => by show some queue.head? = some q.head?; rw [hq],
          fun h5 _ => absurd h5 h5A⟩
        show queue.drop 1 = q.drop ((if 5 ≤ pcA then 1 else 0) + (if (5 : Nat) ≤ 5 then 1 else 0))
        rw [if_neg h5A, if_pos (by decide : (5 : Nat) ≤ 5), hq]
    · -- release after the pop
      have hlt : lock = some true := hLB.mpr (by simp [inCS])
      have hnA : ¬ inCS pcA := fun hc => by
        rw [hlt] at hLA
        exact absurd (hLA.mpr hc) (by simp)
      show srvInv q pA pB ⟨none, queue, log, pcA, 6, resA, resB⟩
      dsimp only [srvInv]
      exact ⟨hA6, by decide, iff_of_false (by simp) hnA, iff_of_false (by simp) (by simp [inCS]),
        fun _ (h1 : 6 ≤ 1) => absurd h1 (by omega),
        fun _ (h1 : 6 ≤ 1) => absurd h1 (by omega),
        fun ha _ => hl01 ha (by omega),
        fun h2 _ => hl11 h2 (by omega),
        hq, hrA0, fun (h4 : 6 ≤ 4) => absurd h4 (by omega),
        fun _ (h4 : 6 ≤ 4) => absurd h4 (by omega),
        fun _ ha => hrB1 (by omega) ha,
        fun h5 _ => hr2 h5 (by omega)⟩
    · -- done
      show srvInv q pA pB ⟨lock, queue, log, pcA, 6, resA, resB⟩
      dsimp only [srvInv]
      exact ⟨hA6, hB6, hLA, hLB, hl00, hl10, hl01, hl11, hq, hrA0, hrB0, hrA1, hrB1, hr2⟩

theorem srvInv_run (q : List String) (pA pB : List (String × Json)) (sched : List Bool) :
    srvInv q pA pB (runSched pA pB q sched) := by
  unfold runSched
  have hstep : ∀ (l : List Bool) (c : SrvConfig), srvInv q pA pB c →
      srvInv q pA pB (l.foldl (fun c t => srvStep pA pB t c) c) := by
    intro l
    induction l with
    | nil => intro c hc; exact hc
    | cons t ts ih => intro c hc; exact ih _ (srvInv_step q pA pB t c hc)
  exact hstep sched _ (srvInv_init q pA pB)

/-- Claim C2: in the fine-grained interleaving model of two concurrent
create-response requests, the single mutex makes the log append and the
queue pop atomic with respect to each other (no schedule ever has both
threads inside a critical section); and under every interleaving a
completed run has appended both payloads (in some order, none lost) and
has handed out the first two queued exchanges, the earlier pop getting
the head, never an exchange twice. -/
theorem claim_C2 (pA pB : List (String × Json)) (q : List String) (sched : List Bool) :
    ¬ (inCS (runSched pA pB q sched).pcA ∧ inCS (runSched pA pB q sched).pcB) ∧
      ((runSched pA pB q sched).pcA = 6 → (runSched pA pB q sched).pcB = 6 →
        ((runSched pA pB q sched).log = [pA, pB] ∨ (runSched pA pB q sched).log = [pB, pA]) ∧
          (runSched pA pB q sched).queue = q.drop 2 ∧
          (((runSched pA pB q sched).resA = some q.head? ∧
              (runSched pA pB q sched).resB = some ((q.drop 1).head?)) ∨
            ((runSched pA pB q sched).resB = some q.head? ∧
              (runSched pA pB q sched).resA = some ((q.drop 1).head?)))) := by
  obtain ⟨hA6, hB6, hLA, hLB, hl00, hl10, hl01, hl11, hq, hrA0, hrB0, hrA1, hrB1, hr2⟩ :=
    srvInv_run q pA pB sched
  constructor
  · rintro ⟨hA, hB⟩
    have h1 := hLA.mpr hA
    have h2 := hLB.mpr hB
    rw [h1] at h2
    exact absurd h2 (by simp)
  · intro hA hB
    refine ⟨hl11 (by omega) (by omega), ?_, hr2 (by omega) (by omega)⟩
    rw [hA, hB] at hq
    exact hq

/-- The schedule interleaving the two requests: A appends, B appends,
A pops, B pops. -/
def c2Sched : List Bool :=
  [false, false, false, true, true, true, false, false, false, true, true, true]

def c2Run : SrvConfig :=
  runSched [(("a"), Json.null)] [(("b"), Json.null)] ["E1", "E2"] c2Sched

theorem claim_C2_witness :
    ¬ (inCS c2Run.pcA ∧ inCS c2Run.pcB) ∧
      ((c2Run.log = [[(("a"), Json.null)], [(("b"), Json.null)]] ∨
          c2Run.log = [[(("b"), Json.null)], [(("a"), Json.null)]]) ∧
        c2Run.queue = (["E1", "E2"] : List String).drop 2 ∧
        ((c2Run.resA = some (["E1", "E2"] : List String).head? ∧
            c2Run.resB = some (((["E1", "E2"] : List String).drop 1).head?)) ∨
          (c2Run.resB = some (["E1", "E2"] : List String).head? ∧
            c2Run.resA = some (((["E1", "E2"] : List String).drop 1).head?)))) := by
  have h := claim_C2 [(("a"), Json.null)] [(("b"), Json.null)] ["E1", "E2"] c2Sched
  exact ⟨h.1, h.2 rfl rfl⟩

/-! ## Stream server lemmas and claims C4, C8, C9 -/

/-- The create-response handler in one equation: the response and queue
depend only on the queue, the log grows exactly by a decoded non-empty
payload. -/
theorem serveResponses_state (raw : String) (s : StubState) :
    serveResponses raw s =
      ((match s.sseQueue with
        | [] => HResponse.error500 ("no queued SSE responses")
        | b :: _ => HResponse.stream ("text/event-stream") b),
       { sseQueue := s.sseQueue.drop 1,
         responseReqs := s.responseReqs ++
           (match decodeBody raw with
            | some m => if m.length ≠ 0 then [m] else []
            | none => []) }) := by
  rcases s with ⟨q, l⟩
  unfold serveResponses popSSE recordResponseRequest
  cases h : decodeBody raw with
  | none => cases q <;> simp [h]
  | some m =>
    by_cases hm : m.length ≠ 0 <;> cases q <;> simp [h, hm]

/-- Claim C4: a server provisioned with exactly N exchanges answers N+1
sequential create-response requests with the N exchanges in FIFO order,
never out of order and never repeated, and answers the last request
with the exhaustion 500 and its diagnostic body. -/
theorem claim_C4 (qs raws : List String) (log0 : List (List (String × Json)))
    (h : raws.length = qs.length + 1) :
    (processAll raws ⟨qs, log0⟩).1 =
      qs.map (fun b => HResponse.stream ("text/event-stream") b) ++
        [HResponse.error500 ("no queued SSE responses")] := by
  induction qs generalizing raws log0 with
  | nil =>
    match raws with
    | [r] => simp [processAll, serveResponses_state r ⟨[], log0⟩]
  | cons q qs ih =>
    match raws with
    | r :: rs =>
      have hlen : rs.length = qs.length + 1 := by simpa using h
      simp [processAll, serveResponses_state r ⟨q :: qs, log0⟩, ih rs _ hlen]

theorem claim_C4_witness :
    (processAll ["", "", ""] ⟨["x", "y"], []⟩).1 =
      [HResponse.stream ("text/event-stream") ("x"),
       HResponse.stream ("text/event-stream") ("y"),
       HResponse.error500 ("no queued SSE responses")] :=
  (claim_C4 ["x", "y"] ["", "", ""] [] (by decide)).trans (by decide)

/-- Claim C8: the inbound body is appended to the request log exactly
when it decodes to a non-empty payload; an empty or undecodable body is
not recorded and not fatal, and an exchange is popped and streamed (or
the exhaustion 500 returned) regardless. -/
theorem claim_C8 (raw : String) (s : StubState) :
    ((serveResponses raw s).2).responseReqs =
        s.responseReqs ++
          (match decodeBody raw with
           | some m => if m.length ≠ 0 then [m] else []
           | none => []) ∧
      ((serveResponses raw s).2).sseQueue = s.sseQueue.drop 1 ∧
      (serveResponses raw s).1 =
        (match s.sseQueue with
         | [] => HResponse.error500 ("no queued SSE responses")
         | b :: _ => HResponse.stream ("text/event-stream") b) := by
  rw [serveResponses_state raw s]
  exact ⟨rfl, rfl, rfl⟩

/-- Claim C9: the append happens before the pop, so a request whose
body decodes non-empty grows the log even when the queue is empty and
the exhaustion 500 is returned. -/
theorem claim_C9 (raw : String) (s : StubState) (m : List (String × Json))
    (h1 : decodeBody raw = some m) (h2 : m ≠ []) (h3 : s.sseQueue = []) :
    serveResponses raw s =
      (HResponse.error500 ("no queued SSE responses"),
       { sseQueue := [], responseReqs := s.responseReqs ++ [m] }) := by
  have hm : m.length ≠ 0 := by simpa using h2
  rw [serveResponses_state raw s, h3, h1]
  simp [hm]

/-! ## Collector single scan: claims C5 and C10 -/

/-- Strict version of the sort order, for uniqueness arguments. -/
def seqLt (a b : hookCall) : Prop := a.Seq < b.Seq

instance : IsAntisymm hookCall seqLt :=
  ⟨fun _ _ h1 h2 => absurd (lt_trans h1 h2) (lt_irrefl _)⟩

theorem sortCalls_sorted (l : List hookCall) : List.Sorted seqLe (sortCalls l) :=
  List.sorted_insertionSort seqLe l

theorem sortCalls_perm (l : List hookCall) : List.Perm (sortCalls l) l :=
  List.perm_insertionSort seqLe l

theorem sorted_strict_of_pairwise_ne {l : List hookCall} (hs : List.Sorted seqLe l)
    (hn : l.Pairwise (fun a b => a.Seq ≠ b.Seq)) : List.Sorted seqLt l :=
  (hs.and hn).imp (fun h => lt_of_le_of_ne h.1 h.2)

theorem sortCalls_eq_of_perm {l1 l2 : List hookCall} (hp : List.Perm l1 l2)
    (hn : l1.Pairwise (fun a b => a.Seq ≠ b.Seq)) : sortCalls l1 = sortCalls l2 := by
  have hn1 : (sortCalls l1).Pairwise (fun a b => a.Seq ≠ b.Seq) :=
    ((sortCalls_perm l1).pairwise_iff (fun h => Ne.symm h)).2 hn
  have hn2 : (sortCalls l2).Pairwise (fun a b => a.Seq ≠ b.Seq) :=
    ((sortCalls_perm l2).pairwise_iff (fun h => Ne.symm h)).2
      ((hp.pairwise_iff (fun h => Ne.symm h)).1 hn)
  exact List.eq_of_perm_of_sorted
    ((sortCalls_perm l1).trans (hp.trans (sortCalls_perm l2).symm))
    (sorted_strict_of_pairwise_ne (sortCalls_sorted l1) hn1)
    (sorted_strict_of_pairwise_ne (sortCalls_sorted l2) hn2)

/-- When every kept entry decodes, the scan loop collects exactly the
kept entries, in listing order. -/
theorem readHookCallsAux_ok (dir : String) (entries : List DirEntry)
    (hdec : ∀ e ∈ entries, e.isDir = false → (atoi (stemOf e.name)).isSome = true →
      (parseHookCall e.content).isSome = true) :
    readHookCallsAux dir entries = .ok (entries.filterMap (decodeOne dir)) := by
  induction entries with
  | nil => rfl
  | cons e rest ih =>
    have ihr := ih (fun x hx => hdec x (List.mem_cons_of_mem e hx))
    by_cases hd : e.isDir
    · simp [readHookCallsAux, hd, ihr, List.filterMap_cons, decodeOne]
    · cases ha : atoi (stemOf e.name) with
      | none => simp [readHookCallsAux, hd, ha, ihr, List.filterMap_cons, decodeOne]
      | some seq =>
        have hp := hdec e (List.mem_cons_self e rest) (by simpa using hd) (by simp [ha])
        cases hpc : parseHookCall e.content with
        | none => rw [hpc] at hp; simp at hp
        | some p =>
          simp [readHookCallsAux, hd, ha, hpc, ihr, List.filterMap_cons, decodeOne, Except.map]

theorem readHookCallsOnce_ok (dir : String) (entries : List DirEntry)
    (hdec : ∀ e ∈ entries, e.isDir = false → (atoi (stemOf e.name)).isSome = true →
      (parseHookCall e.content).isSome = true) :
    readHookCallsOnce dir entries = .ok (sortCalls (entries.filterMap (decodeOne dir))) := by
  unfold readHookCallsOnce
  rw [readHookCallsAux_ok dir entries hdec]
  rfl

/-- Claim C5: a single scan keeps exactly the non-directory entries
whose extension-stripped stem parses as an integer, decodes them, and
returns them sorted by the decoded sequence number; with distinct
sequence numbers the result is independent of the listing order. -/
theorem claim_C5 (dir : String) (entries : List DirEntry)
    (hdec : ∀ e ∈ entries, e.isDir = false → (atoi (stemOf e.name)).isSome = true →
      (parseHookCall e.content).isSome = true) :
    readHookCallsOnce dir entries = .ok (sortCalls (entries.filterMap (decodeOne dir))) ∧
      List.Sorted seqLe (sortCalls (entries.filterMap (decodeOne dir))) ∧
      List.Perm (sortCalls (entries.filterMap (decodeOne dir))) (entries.filterMap (decodeOne dir)) ∧
      ∀ entries2, List.Perm entries entries2 →
        (entries.filterMap (decodeOne dir)).Pairwise (fun a b => a.Seq ≠ b.Seq) →
        readHookCallsOnce dir entries2 = readHookCallsOnce dir entries := by
  refine ⟨readHookCallsOnce_ok dir entries hdec, sortCalls_sorted _, sortCalls_perm _, ?_⟩
  intro entries2 hperm hne
  have hdec2 : ∀ e ∈ entries2, e.isDir = false → (atoi (stemOf e.name)).isSome = true →
      (parseHookCall e.content).isSome = true :=
    fun e he => hdec e (hperm.mem_iff.2 he)
  rw [readHookCallsOnce_ok dir entries hdec, readHookCallsOnce_ok dir entries2 hdec2]
  exact congrArg Except.ok (sortCalls_eq_of_perm (hperm.filterMap (decodeOne dir)) hne).symm

/-- Claim C5 witness: records listed as 2.json, 0.json, 1.json are
returned sorted with sequence numbers 0, 1, 2, and any listing order
yields the same result. -/
theorem claim_C5_witness :
    readHookCallsOnce ("d")
        [⟨"2.json", false, "null"⟩, ⟨"0.json", false, "null"⟩, ⟨"1.json", false, "null"⟩] =
      .ok [⟨0, "", "", "", "", "d/0.json"⟩, ⟨1, "", "", "", "", "d/1.json"⟩,
           ⟨2, "", "", "", "", "d/2.json"⟩] ∧
    readHookCallsOnce ("d")
        [⟨"0.json", false, "null"⟩, ⟨"1.json", false, "null"⟩, ⟨"2.json", false, "null"⟩] =
      readHookCallsOnce ("d")
        [⟨"2.json", false, "null"⟩, ⟨"0.json", false, "null"⟩, ⟨"1.json", false, "null"⟩] := by
  have h := claim_C5 ("d")
    [⟨"2.json", false, "null"⟩, ⟨"0.json", false, "null"⟩, ⟨"1.json", false, "null"⟩]
    (by decide)
  exact ⟨h.1.trans (by decide), h.2.2.2 _ (by decide) (by decide)⟩

theorem string_mk_data (s : String) : String.mk s.data = s := by
  cases s
  rfl

/-- The stem of any name with the .json extension appended is the name
itself: the extension dot is always the last dot. -/
theorem stemOf_append_json (s : String) :
    stemOf (s ++ (".json")) = s := by
  unfold stemOf stemChars extChars
  rw [String.data_append]
  have hmem : '.' ∈ s.data ++ (".json").data :=
    List.mem_append.mpr (Or.inr (by decide))
  rw [if_pos hmem]
  have hrev : (s.data ++ (".json").data).reverse =
      'n' :: 'o' :: 's' :: 'j' :: '.' :: s.data.reverse := by
    rw [List.reverse_append]
    rfl
  rw [hrev]
  have htake : List.takeWhile (fun c => ¬ c = '.')
      ('n' :: 'o' :: 's' :: 'j' :: '.' :: s.data.reverse) = ['n', 'o', 's', 'j'] := by
    simp [List.takeWhile]
  rw [htake]
  have hlen : (s.data ++ (".json").data).length - ('.' :: (['n', 'o', 's', 'j'].reverse)).length =
      s.data.length := by
    simp
  rw [hlen, List.take_left]

/-- Claim C10: the collector accepts any stem strconv.Atoi accepts,
including non-canonical ones with leading zeros or an explicit sign,
records the decoded value as the sequence number, and the validator
then rejects a record whose content repeats such a stem verbatim,
because the cross-check compares against the canonical rendering. -/
theorem claim_C10 (dir s content : String) (n : Int) (p : hookCallJSON) (want : List String)
    (hatoi : atoi s = some n)
    (hparse : parseHookCall content = some p)
    (hseq : p.Seq = s)
    (hnc : s ≠ itoa n) :
    readHookCallsOnce dir [⟨s ++ (".json"), false, content⟩] =
        .ok [⟨n, s, p.Expected, p.Event, p.SubmissionID, joinPath dir (s ++ (".json"))⟩] ∧
      validateMain [⟨n, s, p.Expected, p.Event, p.SubmissionID, joinPath dir (s ++ (".json"))⟩] want =
        some (Violation.seqMismatch n s (joinPath dir (s ++ (".json")))) := by
  have hne : s ≠ "" := by
    intro hempty
    rw [hempty] at hatoi
    simp [atoi, parseNatDigits] at hatoi
  constructor
  · unfold readHookCallsOnce
    simp [readHookCallsAux, stemOf_append_json s, hatoi, hparse, hseq,
      Except.map, sortCalls, List.insertionSort, List.orderedInsert]
  · unfold validateMain checkRecords recordViolation
    simp [hne, hnc]

/-! ## Quiescence characterization: claim C3 -/

theorem runStart_le (env : CollectEnv) : ∀ i, runStart env i ≤ i
  | 0 => le_refl 0
  | j + 1 => by
    unfold runStart
    by_cases hc : nAt env (j + 1) = nAt env j
    · rw [if_pos hc]
      exact (runStart_le env j).trans (by omega)
    · rw [if_neg hc]

theorem runStart_lt_imp (env : CollectEnv) (i : Nat) (h : runStart env i < i) :
    nAt env i = lastAt env i := by
  cases i with
  | zero => omega
  | succ j =>
    unfold runStart at h
    by_cases hc : nAt env (j + 1) = nAt env j
    · simpa [lastAt] using hc
    · rw [if_neg hc] at h
      omega

/-- The stableSince value entering an iteration whose count is at least
the minimum and unchanged: the clock reading of the iteration right
after the current run of equal counts began, provided that iteration is
already in the past; otherwise no timer is running yet. -/
theorem declStable_eq (env : CollectEnv) (want : Nat) (hw : 1 ≤ want) :
    ∀ i, want ≤ nAt env i → nAt env i = lastAt env i →
    declStable env want i =
      (if runStart env i + 1 < i then some (env.tS (runStart env i + 1)) else none) := by
  intro i
  induction i with
  | zero =>
    intro hwant heq
    rw [show lastAt env 0 = 0 from rfl] at heq
    omega
  | succ j ih =>
    intro hwant heq
    have heq' : nAt env (j + 1) = nAt env j := heq
    have hrs : runStart env (j + 1) = runStart env j := by
      have hdef : runStart env (j + 1) =
          (if nAt env (j + 1) = nAt env j then runStart env j else j + 1) := rfl
      rw [hdef, if_pos heq']
    have hwj : want ≤ nAt env j := heq' ▸ hwant
    show stableUpdate want (nAt env j) (lastAt env j) (declStable env want j) (env.tS j) = _
    unfold stableUpdate
    rw [if_pos hwj]
    by_cases hj : nAt env j = lastAt env j
    · rw [if_pos hj]
      have hj1 : 1 ≤ j := by
        cases j with
        | zero =>
          rw [show lastAt env 0 = 0 from rfl] at hj
          omega
        | succ _ => omega
      rw [ih hwj hj]
      by_cases h3 : runStart env j + 1 < j
      · rw [if_pos h3, hrs, if_pos (by omega)]
      · rw [if_neg h3]
        have hrsj : runStart env j < j := by
          cases j with
          | zero => omega
          | succ j2 =>
            have hj2 : nAt env (j2 + 1) = nAt env j2 := hj
            have hdef : runStart env (j2 + 1) =
                (if nAt env (j2 + 1) = nAt env j2 then runStart env j2 else j2 + 1) := rfl
            rw [hdef, if_pos hj2]
            have := runStart_le env j2
            omega
        have hj' : runStart env j + 1 = j := by omega
        rw [hrs, if_pos (by omega), hj']
    · rw [if_neg hj]
      have hrsj : runStart env j = j := by
        cases j with
        | zero => rfl
        | succ j2 =>
          have hdef : runStart env (j2 + 1) =
              (if nAt env (j2 + 1) = nAt env j2 then runStart env j2 else j2 + 1) := rfl
          rw [hdef, if_neg (by exact hj)]
      rw [hrs, hrsj, if_neg (by omega)]

/-- The return branch of the stability block fires exactly at the
declarative stability condition. -/
theorem stepReturns_iff (env : CollectEnv) (want quiet i : Nat) (hw : 1 ≤ want) :
    stepReturns want quiet (nAt env i) (lastAt env i) (declStable env want i) (env.tS i) = true ↔
      successAt env want quiet i := by
  unfold stepReturns successAt
  by_cases h1 : want ≤ nAt env i
  · rw [if_pos h1]
    by_cases h2 : nAt env i = lastAt env i
    · rw [if_pos h2, declStable_eq env want hw i h1 h2]
      by_cases h3 : runStart env i + 1 < i
      · rw [if_pos h3]
        simp [h1, h3]
      · rw [if_neg h3]
        simp [h3]
    · rw [if_neg h2]
      constructor
      · intro hh
        simp at hh
      · rintro ⟨-, h3, -⟩
        exact absurd (runStart_lt_imp env i (by omega)) h2
  · rw [if_neg h1]
    constructor
    · intro hh
      simp at hh
    · rintro ⟨hh, -, -⟩
      omega

theorem pollOk_ok (env : CollectEnv) (i : Nat) (h : pollOk env i = true) :
    pollAt env i = .ok (callsAt env i) := by
  unfold pollOk at h
  unfold callsAt
  cases hp : pollAt env i with
  | ok l => simp [hp]
  | error e => rw [hp] at h; simp at h

/-- A scan result is always sorted by decoded sequence number. -/
theorem callsAt_sorted (env : CollectEnv) (i : Nat) : List.Sorted seqLe (callsAt env i) := by
  unfold callsAt pollAt readHookCallsOnce
  cases h : readHookCallsAux env.dir (env.snap i) with
  | error e => simp [Except.map, h]
  | ok l =>
    simp [Except.map, h]
    exact sortCalls_sorted l

/-- The loop started at iteration i with the replayed state terminates
with result r within the given budget exactly when some iteration in
budget is the first whose trace-level outcome is a stop, and that
outcome is r. -/
theorem collectRun_char (env : CollectEnv) (want quiet deadline : Nat) (hw : 1 ≤ want) :
    ∀ fuel i r, (∀ k, i ≤ k → k < i + fuel → pollOk env k = true) →
    (collectRun env want quiet deadline fuel i ⟨lastAt env i, declStable env want i⟩ = some r ↔
      ∃ j, i ≤ j ∧ j < i + fuel ∧
        (∀ k, i ≤ k → k < j → outcomeAt env want quiet deadline k = none) ∧
        outcomeAt env want quiet deadline j = some r) := by
  intro fuel
  induction fuel with
  | zero =>
    intro i r hok
    simp only [collectRun]
    constructor
    · intro hh
      simp at hh
    · rintro ⟨j, hj1, hj2, -, -⟩
      omega
  | succ fuel ih =>
    intro i r hok
    have hpoll : pollAt env i = .ok (callsAt env i) :=
      pollOk_ok env i (hok i (le_refl i) (by omega))
    by_cases hs : successAt env want quiet i
    · have hsr := (stepReturns_iff env want quiet i hw).2 hs
      unfold nAt at hsr
      have hout : outcomeAt env want quiet deadline i = some (.ok (callsAt env i)) := by
        unfold outcomeAt
        rw [if_pos hs]
      have hrun : collectRun env want quiet deadline (fuel + 1) i
          ⟨lastAt env i, declStable env want i⟩ = some (.ok (callsAt env i)) := by
        simp [collectRun, hpoll, hsr]
      rw [hrun]
      constructor
      · intro hh
        exact ⟨i, le_refl i, by omega, fun k hk1 hk2 => by omega, by rw [hout]; exact hh⟩
      · rintro ⟨j, hj1, hj2, hnone, hj⟩
        rcases Nat.eq_or_lt_of_le hj1 with hji | hji
        · rw [← hji, hout] at hj
          exact hj
        · rw [hnone i (le_refl i) hji] at hout
          exact absurd hout (by simp)
    · have hsr : stepReturns want quiet (nAt env i) (lastAt env i)
          (declStable env want i) (env.tS i) = false := by
        rcases Bool.eq_false_or_eq_true (stepReturns want quiet (nAt env i) (lastAt env i)
          (declStable env want i) (env.tS i)) with hh | hh
        · exact absurd ((stepReturns_iff env want quiet i hw).1 hh) hs
        · exact hh
      unfold nAt at hsr
      by_cases hd : deadline < env.tD i
      · have hout : outcomeAt env want quiet deadline i =
            some (.error (.timeout want env.dir (nAt env i))) := by
          unfold outcomeAt
          rw [if_neg hs, if_pos hd]
        have hrun : collectRun env want quiet deadline (fuel + 1) i
            ⟨lastAt env i, declStable env want i⟩ =
            some (.error (.timeout want env.dir ((callsAt env i).length))) := by
          simp [collectRun, hpoll, hsr, hd]
        rw [hrun]
        constructor
        · intro hh
          exact ⟨i, le_refl i, by omega, fun k hk1 hk2 => by omega, by rw [hout]; exact hh⟩
        · rintro ⟨j, hj1, hj2, hnone, hj⟩
          rcases Nat.eq_or_lt_of_le hj1 with hji | hji
          · rw [← hji, hout] at hj
            exact hj
          · rw [hnone i (le_refl i) hji] at hout
            exact absurd hout (by simp)
      · have hout : outcomeAt env want quiet deadline i = none := by
          unfold outcomeAt
          rw [if_neg hs, if_neg hd]
        have hrun : collectRun env want quiet deadline (fuel + 1) i
            ⟨lastAt env i, declStable env want i⟩ =
            collectRun env want quiet deadline fuel (i + 1)
              ⟨lastAt env (i + 1), declStable env want (i + 1)⟩ := by
          simp [collectRun, hpoll, hsr, hd]
          rfl
        rw [hrun, ih (i + 1) r (fun k hk1 hk2 => hok k (by omega) (by omega))]
        constructor
        · rintro ⟨j, hj1, hj2, hnone, hj⟩
          exact ⟨j, by omega, by omega,
            fun k hk1 hk2 => by
              rcases Nat.eq_or_lt_of_le hk1 with hki | hki
              · rw [← hki]
                exact hout
              · exact hnone k (by omega) hk2,
            hj⟩
        · rintro ⟨j, hj1, hj2, hnone, hj⟩
          have hji : i < j := by
            rcases Nat.eq_or_lt_of_le hj1 with hji | hji
            · rw [← hji, hout] at hj
              exact absurd hj (by simp)
            · exact hji
          exact ⟨j, by omega, by omega, fun k hk1 hk2 => hnone k (by omega) hk2, hj⟩

/-- Claim C3: with clean scans, the loop returns the scanned (sorted)
record set exactly at the first poll whose count is at least the
minimum and has sat unchanged through the quiet window (the timer
restarting after every count change and whenever the count is below the
minimum, both captured by measuring from the start of the current run
of equal counts), unless the deadline passes first, in which case it
fails with a timeout carrying the wanted count, the directory and the
last observed count; and every successfully returned set is sorted by
sequence number. -/
theorem claim_C3 (env : CollectEnv) (want deadline fuel : Nat)
    (r : Except CollectErr (List hookCall)) (hw : 1 ≤ want)
    (hok : ∀ k, k < fuel → pollOk env k = true) :
    (collectRun env want quietForMs deadline fuel 0 ⟨0, none⟩ = some r ↔
      ∃ j, j < fuel ∧
        (∀ k, k < j → outcomeAt env want quietForMs deadline k = none) ∧
        outcomeAt env want quietForMs deadline j = some r) ∧
      (∀ j cs, outcomeAt env want quietForMs deadline j = some (.ok cs) →
        List.Sorted seqLe cs) := by
  constructor
  · have h := collectRun_char env want quietForMs deadline hw fuel 0 r
      (fun k _ hk2 => hok k (by omega))
    constructor
    · intro hc
      obtain ⟨j, -, hj2, hnone, hout⟩ := h.1 hc
      exact ⟨j, by omega, fun k hk => hnone k (by omega) hk, hout⟩
    · rintro ⟨j, hj1, hnone, hout⟩
      exact h.2 ⟨j, by omega, by omega, fun k _ hk2 => hnone k hk2, hout⟩
  · intro j cs hj
    unfold outcomeAt at hj
    by_cases hs : successAt env want quietForMs j
    · rw [if_pos hs] at hj
      have hcs : callsAt env j = cs := by
        simpa using hj
      rw [← hcs]
      exact callsAt_sorted env j
    · rw [if_neg hs] at hj
      by_cases hd : deadline < env.tD j
      · rw [if_pos hd] at hj
        simp at hj
      · rw [if_neg hd] at hj
        simp at hj

def c3Entries : List DirEntry :=
  [⟨"0.json", false, "null"⟩, ⟨"1.json", false, "null"⟩,
   ⟨"2.json", false, "null"⟩, ⟨"3.json", false, "null"⟩]

/-- A trace in which the directory is empty at the first poll and holds
four records from the second poll on, with 100ms between polls. -/
def c3Env : CollectEnv :=
  ⟨"d", fun i => if i = 0 then [] else c3Entries, fun i => 100 * i, fun i => 100 * i⟩

theorem claim_C3_witness :
    (1 ≤ 4) ∧
      collectRun c3Env 4 quietForMs 5000 6 0 ⟨0, none⟩ =
        some (.ok [⟨0, "", "", "", "", "d/0.json"⟩, ⟨1, "", "", "", "", "d/1.json"⟩,
                   ⟨2, "", "", "", "", "d/2.json"⟩, ⟨3, "", "", "", "", "d/3.json"⟩]) := by
  have h := claim_C3 c3Env 4 5000 6
    (.ok [⟨0, "", "", "", "", "d/0.json"⟩, ⟨1, "", "", "", "", "d/1.json"⟩,
          ⟨2, "", "", "", "", "d/2.json"⟩, ⟨3, "", "", "", "", "d/3.json"⟩])
    (by decide) (by decide)
  exact ⟨by decide, h.1.mpr ⟨4, by decide, by decide, by decide⟩⟩

/-! ## Malformed record handling: claim C7 -/

/-- An entry the scan keeps whose content fails to decode. -/
def badEntry (x : DirEntry) : Bool :=
  !x.isDir && (atoi (stemOf x.name)).isSome && (parseHookCall x.content).isNone

theorem readHookCallsAux_error (dir : String) (entries : List DirEntry) (e : DirEntry)
    (hfind : entries.find? badEntry = some e) :
    readHookCallsAux dir entries = .error (.parseErr (joinPath dir e.name)) := by
  induction entries with
  | nil => simp at hfind
  | cons a rest ih =>
    by_cases hb : badEntry a = true
    · rw [List.find?_cons_of_pos _ hb] at hfind
      cases hfind
      have hb' := hb
      simp only [badEntry, Bool.and_eq_true, Bool.not_eq_true'] at hb'
      obtain ⟨⟨hd, hsome⟩, hnone⟩ := hb'
      cases ha : atoi (stemOf e.name) with
      | none => rw [ha] at hsome; simp at hsome
      | some seq =>
        cases hpc : parseHookCall e.content with
        | some p => rw [hpc] at hnone; simp at hnone
        | none => simp [readHookCallsAux, hd, ha, hpc]
    · rw [List.find?_cons_of_neg _ hb] at hfind
      have ihr := ih hfind
      by_cases hd : a.isDir
      · simp [readHookCallsAux, hd, ihr]
      · cases ha : atoi (stemOf a.name) with
        | none => simp [readHookCallsAux, hd, ha, ihr]
        | some seq =>
          cases hpc : parseHookCall a.content with
          | none =>
            exact absurd (by simp [badEntry, hd, ha, hpc]) hb
          | some p => simp [readHookCallsAux, hd, ha, hpc, ihr, Except.map]

/-- Claim C7: a kept record file that fails to decode makes the whole
scan fail with an error naming that file path (the first such file in
listing order), and the polling loop propagates the error from the very
poll that sees it, regardless of remaining budget: the failure is never
retried. -/
theorem claim_C7 (dir : String) (entries : List DirEntry) (e : DirEntry)
    (hfind : entries.find? badEntry = some e) :
    readHookCallsOnce dir entries = .error (.parseErr (joinPath dir e.name)) ∧
      ∀ (env : CollectEnv) (want quiet deadline fuel i : Nat) (st : LoopState),
        env.dir = dir → env.snap i = entries → 1 ≤ fuel →
        collectRun env want quiet deadline fuel i st =
          some (.error (.parseErr (joinPath dir e.name))) := by
  have h1 : readHookCallsOnce dir entries = .error (.parseErr (joinPath dir e.name)) := by
    unfold readHookCallsOnce
    rw [readHookCallsAux_error dir entries e hfind]
    rfl
  refine ⟨h1, ?_⟩
  intro env want quiet deadline fuel i st hdir hsnap hfuel
  have hpoll : pollAt env i = .error (.parseErr (joinPath dir e.name)) := by
    unfold pollAt
    rw [hdir, hsnap]
    exact h1
  match fuel, hfuel with
  | f + 1, _ => simp [collectRun, hpoll]

def c7Listing : List DirEntry :=
  [⟨"0.json", false, "null"⟩, ⟨"1.json", false, "nope"⟩, ⟨"2.json", false, "null"⟩]

def c7Env : CollectEnv := ⟨"d", fun _ => c7Listing, fun i => 25 * i, fun i => 25 * i⟩

theorem claim_C7_witness :
    readHookCallsOnce ("d") c7Listing = .error (.parseErr ("d/1.json")) ∧
      collectRun c7Env 4 200 5000 3 0 ⟨0, none⟩ = some (.error (.parseErr ("d/1.json"))) := by
  have h := claim_C7 ("d") c7Listing ⟨"1.json", false, "nope"⟩ (by decide)
  exact ⟨h.1, h.2 c7Env 4 200 5000 3 0 ⟨0, none⟩ rfl rfl (by decide)⟩

theorem claim_C10_witness :
    atoi ("007") = some 7 ∧ atoi ("-1") = some (-1) ∧ atoi ("+2") = some 2 ∧
      readHookCallsOnce ("d") [⟨"007.json", false, "\x7b\"seq\":\"007\"\x7d"⟩] =
        .ok [⟨7, "007", "", "", "", "d/007.json"⟩] ∧
      validateMain [⟨7, "007", "", "", "", "d/007.json"⟩] [""] =
        some (Violation.seqMismatch 7 ("007") ("d/007.json")) := by
  have h := claim_C10 ("d") ("007") ("\x7b\"seq\":\"007\"\x7d") 7 ⟨"007", "", "", ""⟩ [""]
    (by decide) rfl rfl (by decide)
  exact ⟨by decide, by decide, by decide, h.1, h.2⟩

/-! ## Sequence validator: claim C1 -/

theorem checkRecords_eq_head (cs : List hookCall) :
    checkRecords cs = (perRecordViolations cs).head? := by
  induction cs with
  | nil => rfl
  | cons c cs ih =>
    unfold checkRecords recordViolation perRecordViolations
    by_cases h1 : c.SeqStr ≠ "" ∧ c.SeqStr ≠ itoa c.Seq
    · simp [h1]
    · by_cases h2 : c.Expected ≠ c.Event
      · simp [h1, h2]
      · simp [h1, h2, ih]

/-- Claim C1, amended: the validator evaluates the checks in source
order and reports exactly the first violation, then exits; a failure is
never silent, but when several checks are violated only the first one
in evaluation order is reported and the later checks are not run. -/
theorem claim_C1_amended (calls : List hookCall) (want : List String) :
    validateMain calls want = (specAllViolations calls want).head? := by
  unfold validateMain specAllViolations
  rw [checkRecords_eq_head]
  cases hp : perRecordViolations calls with
  | cons v tl => simp
  | nil =>
    by_cases ho : equalStrings (calls.map (fun c => c.Event)) want = false
    · simp [ho]
    · by_cases hc : calls.length ≠ want.length
      · simp [ho, hc]
      · simp [ho, hc]

/-- Claim C1, counterexample: a run whose first record violates both the
seq cross-check and the expected/event check (and whose event order also
differs from the expected list) makes the validator report only the seq
mismatch; the other violations exist but are never reported, refuting
the claim that all violations are reported. -/
theorem claim_C1_counterexample :
    validateMain [⟨0, "7", "a", "b", "x", "p"⟩] ["a"] =
        some (Violation.seqMismatch 0 ("7") ("p")) ∧
      Violation.expectedEventMismatch ("a") ("b") 0 ("p") ∈
        specAllViolations [⟨0, "7", "a", "b", "x", "p"⟩] ["a"] ∧
      Violation.orderMismatch ["b"] ["a"] ∈
        specAllViolations [⟨0, "7", "a", "b", "x", "p"⟩] ["a"] ∧
      Violation.seqMismatch 0 ("7") ("p") ≠
        Violation.expectedEventMismatch ("a") ("b") 0 ("p") := by
  refine ⟨?_, ?_, ?_, ?_⟩ <;> decide

/-! ## SSE encoding: claim C6 -/

theorem sse_foldl_shift (a : String) (l : List (List (String × Json))) :
    l.foldl (fun acc ev => acc ++ sseOne ev) a = a ++ l.foldl (fun acc ev => acc ++ sseOne ev) "" := by
  induction l generalizing a with
  | nil => simp [String.append_empty]
  | cons ev evs ih =>
    simp only [List.foldl_cons]
    rw [ih (a ++ sseOne ev), ih ("" ++ sseOne ev), String.empty_append, String.append_assoc]

theorem sse_cons (ev : List (String × Json)) (evs : List (List (String × Json))) :
    sse (ev :: evs) = sseOne ev ++ sse evs := by
  unfold sse
  simp only [List.foldl_cons]
  rw [sse_foldl_shift, String.empty_append]

/-- The two scripted events of the round-trip property, with their
fields in the order encoding/json renders them (Go maps are unordered;
the association lists fix the rendered order). -/
def evCreatedRT : List (String × Json) :=
  [("response", Json.obj [("id", Json.str "resp-1")]), ("type", Json.str "response.created")]

def evCompletedRT : List (String × Json) :=
  [("response", Json.obj [("id", Json.str "resp-1")]), ("type", Json.str "response.completed")]

/-- Claim C6: each scripted event encodes as an event-kind line, then a
data line with the whole payload exactly when the event has more than
its kind, terminated by a blank line; and the scripted created/completed
exchange round-trips through a generic SSE client parse, yielding the
same kinds and payload fields. -/
theorem claim_C6 :
    (∀ (ev : List (String × Json)) (evs : List (List (String × Json))),
        sse (ev :: evs) =
          (("event: ") ++ kindOf ev ++ ("\n") ++
              (if ev.length = 1 then ("\n")
               else ("data: ") ++ marshal (Json.obj ev) ++ ("\n") ++ ("\n"))) ++
            sse evs) ∧
      parseSSEStream (sse [evCreatedRT, evCompletedRT]) =
        some [(("response.created"), some (Json.obj evCreatedRT)),
              (("response.completed"), some (Json.obj evCompletedRT))] :=
  ⟨fun ev evs => sse_cons ev evs, rfl⟩

theorem claim_C9_witness :
    decodeBody ("\x7b\"a\":null\x7d") = some [(("a"), Json.null)] ∧
      serveResponses ("\x7b\"a\":null\x7d") ⟨[], []⟩ =
        (HResponse.error500 ("no queued SSE responses"),
         { sseQueue := [], responseReqs := [[(("a"), Json.null)]] }) :=
  ⟨rfl, claim_C9 _ _ [(("a"), Json.null)] rfl (by simp) rfl⟩

end E2EHooks
